import Mathlib

/-!
Verification of the logrus-stackdriver-hook core (package hook) against its
specification.  The Go source is shallowly embedded: byte slices are modelled
as lists of characters, maps as association lists with unique keys, the
variadic levels argument as an Option (none models a nil Go slice, some ls a
non-nil slice, possibly empty), and Go panics (out-of-range slice indexing)
as the none case of an Option-valued function.
-/

namespace StackdriverHook

/-- Embedding of logrus.Level (logrus v1.4.0): the six classic levels plus
trace.  Only the ordering-free identity of each level matters here. -/
inductive Level where
  | panic
  | fatal
  | error
  | warn
  | info
  | debug
  | trace
deriving DecidableEq, BEq, Repr

/-- Embedding of the cloud logging severities used by the hook:
logging.Default, logging.Info, logging.Warning, logging.Error,
logging.Critical. -/
inductive Severity where
  | default
  | info
  | warning
  | error
  | critical
deriving DecidableEq, Repr

/-- Embedding of `var DefaultErrorLevels = []logrus.Level{PanicLevel, FatalLevel, ErrorLevel}`. -/
def DefaultErrorLevels : List Level :=
  [Level.panic, Level.fatal, Level.error]

/-- Embedding of `var DefaultLogLevels = []logrus.Level{WarnLevel, InfoLevel}`. -/
def DefaultLogLevels : List Level :=
  [Level.warn, Level.info]

/-- Embedding of `func levelToSeverity(l logrus.Level) logging.Severity`:
a switch on the level with a default branch returning logging.Default. -/
def levelToSeverity (l : Level) : Severity :=
  match l with
  | Level.info => Severity.info
  | Level.warn => Severity.warning
  | Level.error => Severity.error
  | Level.panic => Severity.critical
  | Level.fatal => Severity.critical
  | _ => Severity.default

/-- Dynamically typed field values stored in logrus.Entry.Data
(`map[string]interface\x7b\x7d`), modelled as a sum type as only the
`case string` arm of the Go switches distinguishes strings from the rest. -/
inductive FieldValue where
  | vstr : String → FieldValue
  | vint : Int → FieldValue
  | vbool : Bool → FieldValue
deriving DecidableEq, Repr

/-- Default textual form produced by Go's `fmt.Sprintf` with the
general verb on a field value: strings print as themselves, integers in
decimal, booleans as true/false. -/
def govRepr (v : FieldValue) : String :=
  match v with
  | FieldValue.vstr s => s
  | FieldValue.vint n => toString n
  | FieldValue.vbool b => if b then "true" else "false"

/-- The per-field switch in Log.toEntry: `case string: labels[k] = v` and
`default: labels[k] = fmt.Sprintf(..., v)`. -/
def fieldLabel (v : FieldValue) : String :=
  match v with
  | FieldValue.vstr s => s
  | v => govRepr v

/-- Embedding of logrus.Entry: Time, Level, Message, Data.  Data is an
association list standing for the Go string-keyed map (keys unique). -/
structure LogEvent where
  time : Nat
  level : Level
  message : String
  data : List (String × FieldValue)
deriving DecidableEq, Repr

/-- Embedding of logging.Entry: Timestamp, Severity, Payload, Labels. -/
structure LogEntry where
  timestamp : Nat
  severity : Severity
  payload : String
  labels : List (String × String)
deriving DecidableEq, Repr

/-- Go map assignment `labels[k] = v` on the association-list model:
overwrite the binding when the key is present, append it otherwise. -/
def mapInsert (m : List (String × String)) (k v : String) : List (String × String) :=
  if m.any (fun p => p.1 == k) then
    m.map (fun p => if p.1 == k then (k, v) else p)
  else
    m ++ [(k, v)]

/-- Embedding of `func (h *Log) toEntry(e *logrus.Entry) logging.Entry`
(the receiver is unused by the Go code): builds the label map by iterating
over e.Data with the string/default switch, then assembles the entry with
Timestamp, levelToSeverity, and Payload taken verbatim from the event. -/
def toEntry (e : LogEvent) : LogEntry :=
  { timestamp := e.time
    severity := levelToSeverity e.level
    payload := e.message
    labels := e.data.foldl (fun m p => mapInsert m p.1 (fieldLabel p.2)) [] }

/-- Embedding of the ErrorReport hook struct: the client is the opaque
error-sink handle, levels the configured severity set. -/
structure ErrorReport (C : Type) where
  client : C
  levels : List Level
deriving Repr

/-- Embedding of `func NewErrorReport(client, levels ...logrus.Level)`:
the default level set is substituted exactly when the variadic slice is
nil (`levels == nil`), i.e. when the argument is none; a non-nil slice —
even an empty one — is kept as supplied. -/
def NewErrorReport {C : Type} (client : C) (levels : Option (List Level)) : ErrorReport C :=
  { client := client, levels := levels.getD DefaultErrorLevels }

/-- Embedding of `func (h *ErrorReport) Levels() []logrus.Level`. -/
def ErrorReport.Levels {C : Type} (h : ErrorReport C) : List Level :=
  h.levels

/-- Embedding of the Log hook struct: the logger is the opaque log-sink
handle, levels the configured severity set. -/
structure Log (C : Type) where
  logger : C
  levels : List Level
deriving Repr

/-- Embedding of `func NewLog(logger, levels ...logrus.Level)`: as with
NewErrorReport, the default set applies only to a nil variadic slice. -/
def NewLog {C : Type} (logger : C) (levels : Option (List Level)) : Log C :=
  { logger := logger, levels := levels.getD DefaultLogLevels }

/-- Embedding of `func (h *Log) Levels() []logrus.Level`. -/
def Log.Levels {C : Type} (h : Log C) : List Level :=
  h.levels

/-- Modelled from the spec: the hosting pipeline's severity filter
(`accept(event) -> bool`, spec section 4.1 and 6).  The dispatch that
consults a hook's Levels() before invoking it lives in the logging
framework (logrus LevelHooks), not in this repository, so it is modelled
from the spec's words as set membership in the hook's level list. -/
def accept (levels : List Level) (l : Level) : Bool :=
  levels.contains l

/-! ### The stack sanitizer (chopstack) -/

/-- The internal logging-framework package constant the sanitizer matches
call-site lines against. -/
def logrusPfx : List Char :=
  "github.com/sirupsen/logrus.".toList

/-- Embedding of `bytes.HasPrefix(line, logrusPfx)`. -/
def hasLogrusPfx (line : List Char) : Bool :=
  logrusPfx.isPrefixOf line

/-- Embedding of `bytes.Split(buf, newline)`. -/
def splitOnNl (buf : List Char) : List (List Char) :=
  buf.splitOn '\n'

/-- Embedding of `bytes.Join(lines, newline)`. -/
def joinNl (ls : List (List Char)) : List Char :=
  List.intercalate ['\n'] ls

/-- The scan loop of chopstack, expressed on the suffix `lines[i:]` of the
split trace (the loop starts at i = 3 and only ever reads lines[i] and
later):  `line := lines[i]` panics when i is past the end (the none case);
a line carrying the logrus package text advances i by 2 (drop the frame
pair); the first line without it stops the loop, and `lines[i:]` — the
current suffix — is what the caller appends after the header. -/
def scanSuffix : List (List Char) → Option (List (List Char))
  | [] => none
  | l :: rest =>
    if hasLogrusPfx l then
      match rest with
      | [] => none
      | _ :: rest2 => scanSuffix rest2
    else
      some (l :: rest)

/-- Embedding of `func chopstack(buf []byte) []byte`: split on newlines,
scan from index 3 in steps of 2 past frame pairs whose call-site line has
the logrus package text, then rejoin `lines[0]` followed by `lines[i:]`
with newline separators.  The Go loop indexes `lines[i]` without a bounds
check, so a scan running past the end is a runtime panic, modelled as
none. -/
def chopstack (buf : List Char) : Option (List Char) :=
  (scanSuffix ((splitOnNl buf).drop 3)).map
    (fun rest => joinNl ((splitOnNl buf).take 1 ++ rest))

/-- Flattening of a list of frame pairs (call-site line, source-location
line) into the line sequence they occupy in a raw trace. -/
def pairLines : List (List Char × List Char) → List (List Char)
  | [] => []
  | p :: ps => p.1 :: p.2 :: pairLines ps

/-! ### The Fire operations -/

/-- Result of one Log.Fire call: the entries submitted to the log sink
during the call, and the Go error value returned to logrus. -/
structure LogFireResult where
  submissions : List LogEntry
  err : Option String
deriving DecidableEq, Repr

/-- Embedding of `func (h *Log) Fire(e *logrus.Entry) error`: the body is
`h.logger.Log(h.toEntry(e)); return nil` — one submission of toEntry e to
the log sink, then a nil return.  The SDK's Logger.Log is asynchronous and
returns no value, so the returned error is the literal nil. -/
def logFire (e : LogEvent) : LogFireResult :=
  { submissions := [toEntry e], err := none }

/-- Modelled from the spec: the LogSink collaborator interface
`submit(entry) -> error-or-none` of spec section 6 together with the
section 4.2 requirement that any sink-level error is surfaced to the
caller unmodified.  Used as the comparison point for the claimed error
propagation of Fire. -/
def specLogFire (submit : LogEntry → Option String) (e : LogEvent) : LogFireResult :=
  { submissions := [toEntry e], err := submit (toEntry e) }

/-- Embedding of errorreporting.Entry as filled in by ErrorReport.Fire:
Error is `errors.New(e.Message)` (kept as its text), Stack the sanitized
trace, User the extracted user identifier. -/
structure ReportEntry where
  error : String
  stack : List Char
  user : String
deriving DecidableEq, Repr

/-- Result of one ErrorReport.Fire call: how many stack captures ran, the
reports submitted to the error sink, and the returned Go error. -/
structure ErrorFireResult where
  captures : Nat
  submissions : List ReportEntry
  err : Option String
deriving DecidableEq, Repr

/-- The user-extraction switch of ErrorReport.Fire: if e.Data carries the
key "user", a string value passes through and any other value is
formatted with fmt.Sprintf; otherwise the user text stays empty. -/
def userField (data : List (String × FieldValue)) : String :=
  match data.lookup "user" with
  | none => ""
  | some (FieldValue.vstr s) => s
  | some v => govRepr v

/-- Embedding of `func (h *ErrorReport) Fire(e *logrus.Entry) error`: one
runtime.Stack capture (the captured text is the raw parameter), chopstack
over it, the user switch, then one client.Report submission and a nil
return.  The SDK's Client.Report is asynchronous and returns no value.  A
chopstack panic propagates, hence the Option result. -/
def errorReportFire (e : LogEvent) (raw : List Char) : Option ErrorFireResult :=
  (chopstack raw).map (fun st =>
    { captures := 1
      submissions := [{ error := e.message, stack := st, user := userField e.data }]
      err := none })

/-! ### Concrete inputs used by witnesses and counterexamples -/

/-- A short raw trace: only three lines, so `lines[3]` is out of range. -/
def shortTrace : List Char :=
  "goroutine 1 [running]:\nmain.main()\n\t/app/main.go:10 +0x22".toList

/-- A well-formed raw trace with no internal frames after the fixed
offset: header, the hook's own frame pair, then application frames. -/
def rawTrace1 : List Char :=
  "goroutine 7 [running]:\nhook.Fire(0x1)\n\t/app/hook.go:41 +0x6c\nmain.run()\n\t/app/run.go:8 +0x10".toList

/-- The sanitized form of rawTrace1: header plus the application frames. -/
def choppedTrace1 : List Char :=
  "goroutine 7 [running]:\nmain.run()\n\t/app/run.go:8 +0x10".toList

/-- The warning event of the example program. -/
def evWarn : LogEvent :=
  { time := 0, level := Level.warn, message := "a warning will be sent", data := [] }

/-- The error event of end-to-end scenario A. -/
def evUser : LogEvent :=
  { time := 2
    level := Level.error
    message := "send user err: do bar: do foo"
    data := [("user", FieldValue.vstr "howard")] }

/-- The ErrorFireResult produced by errorReportFire on evUser and rawTrace1. -/
def reportUser : ErrorFireResult :=
  { captures := 1
    submissions := [{ error := "send user err: do bar: do foo", stack := choppedTrace1, user := "howard" }]
    err := none }

/-- An event with no "user" field, for the amended C3 witness. -/
def evBoom : LogEvent :=
  { time := 1, level := Level.error, message := "boom", data := [] }

/-- The ErrorFireResult produced by errorReportFire on evBoom and rawTrace1. -/
def reportBoom : ErrorFireResult :=
  { captures := 1
    submissions := [{ error := "boom", stack := choppedTrace1, user := "" }]
    err := none }

/-- A log sink that fails every submission, for the C3 counterexample. -/
def failingSink : LogEntry → Option String :=
  fun _ => some "sink submission failed"

/-- The info event of the example program, with a string field and an
integer field. -/
def evInfo : LogEvent :=
  { time := 3
    level := Level.info
    message := "an info will be sent"
    data := [("user", FieldValue.vstr "howard"), ("n", FieldValue.vint 42)] }

/-- Header line of the concrete skip-property trace. -/
def hdrW : List Char :=
  "goroutine 1 [running]:".toList

/-- The sanitizer's own call-site line in the concrete skip-property trace. -/
def ownFrame1 : List Char :=
  "github.com/hayeah/logrus-stackdriver-hook.(*ErrorReport).Fire(0xc0000bcae0)".toList

/-- The sanitizer's own source-location line in the concrete skip-property trace. -/
def ownFrame2 : List Char :=
  "\t/Users/howard/src/logrus-stackdriver-hook/hook.go:41 +0x6c".toList

/-- One internal logging-framework frame pair for the concrete
skip-property trace. -/
def pairsW : List (List Char × List Char) :=
  [("github.com/sirupsen/logrus.LevelHooks.Fire(0xc0000a21b0)".toList,
    "\t/Users/howard/go/pkg/mod/hooks.go:28 +0x91".toList)]

/-- First genuine application call-site line of the concrete
skip-property trace. -/
def appFrame1 : List Char :=
  "main.main()".toList

/-- Remaining genuine lines of the concrete skip-property trace. -/
def appRest : List (List Char) :=
  ["\t/Users/howard/src/main.go:39 +0x22".toList]

/-! ### Claim theorems (first group) -/

/-- Claim C1 (code bug): on a raw trace of only three lines — shorter than
the fixed offset 3 plus one frame pair — chopstack reads `lines[3]` out of
range and panics (the none result), instead of returning the best-effort
header-plus-rest output the spec requires. -/
theorem chopstack_short_trace_out_of_range : chopstack shortTrace = none := by
  decide

/-- Claim C5: levelToSeverity maps info to the informational severity,
warn to warning, error to error, panic and fatal to critical, and every
other level (debug and trace) through the default branch to the
least-severe default value; being a total Lean function over the level
enum, it never fails. -/
theorem levelToSeverity_mapping :
    levelToSeverity Level.info = Severity.info ∧
    levelToSeverity Level.warn = Severity.warning ∧
    levelToSeverity Level.error = Severity.error ∧
    levelToSeverity Level.panic = Severity.critical ∧
    levelToSeverity Level.fatal = Severity.critical ∧
    levelToSeverity Level.debug = Severity.default ∧
    levelToSeverity Level.trace = Severity.default :=
  ⟨rfl, rfl, rfl, rfl, rfl, rfl, rfl⟩

/-- Claim C7: with the variadic levels argument omitted (nil slice),
NewErrorReport configures the default set panic-fatal-error and NewLog the
default set warn-info; with a supplied set, Levels() returns exactly that
set. -/
theorem hook_levels_construction (C D : Type) (ec : C) (lc : D) (ls : List Level) :
    (NewErrorReport ec none).Levels = [Level.panic, Level.fatal, Level.error] ∧
    (NewLog lc none).Levels = [Level.warn, Level.info] ∧
    (NewErrorReport ec (some ls)).Levels = ls ∧
    (NewLog lc (some ls)).Levels = ls :=
  ⟨rfl, rfl, rfl, rfl⟩

/-- Claim C10: passing an explicitly empty (zero-length but non-nil)
levels list suppresses the defaults: the resulting hooks report an empty
level set and the pipeline's severity filter accepts no level at all. -/
theorem empty_levels_accept_nothing (C D : Type) (ec : C) (lc : D) :
    (NewErrorReport ec (some [])).Levels = [] ∧
    (NewLog lc (some [])).Levels = [] ∧
    (∀ l : Level, accept ((NewErrorReport ec (some [])).Levels) l = false) ∧
    (∀ l : Level, accept ((NewLog lc (some [])).Levels) l = false) :=
  ⟨rfl, rfl, fun _ => rfl, fun _ => rfl⟩

/-! ### Helper lemmas about splitting, joining and the scan loop -/

/-- Splitting never yields the empty list of lines. -/
theorem splitOnNl_ne_nil (buf : List Char) : splitOnNl buf ≠ [] := by
  unfold splitOnNl List.splitOn
  exact List.splitOnP_ne_nil _ buf

/-- No chunk produced by splitOnP contains an element satisfying the
separator predicate. -/
theorem splitOnP_no_sep (p : Char → Bool) :
    ∀ (xs : List Char), ∀ l ∈ xs.splitOnP p, ∀ a ∈ l, ¬ p a := by
  intro xs
  induction xs with
  | nil =>
    intro l hl a ha
    rw [List.splitOnP_nil] at hl
    simp only [List.mem_singleton] at hl
    subst hl
    exact absurd ha (List.not_mem_nil a)
  | cons x xs ih =>
    intro l hl a ha
    rw [List.splitOnP_cons] at hl
    by_cases hx : p x
    · rw [if_pos hx] at hl
      rcases List.mem_cons.mp hl with rfl | hl2
      · exact absurd ha (List.not_mem_nil a)
      · exact ih l hl2 a ha
    · rw [if_neg hx] at hl
      obtain ⟨h, t, hsp⟩ : ∃ h t, xs.splitOnP p = h :: t := by
        cases hsp : xs.splitOnP p with
        | nil => exact absurd hsp (List.splitOnP_ne_nil p xs)
        | cons h t => exact ⟨h, t, rfl⟩
      rw [hsp] at hl
      simp only [List.modifyHead, List.mem_cons] at hl
      rcases hl with rfl | hl2
      · rcases List.mem_cons.mp ha with rfl | ha2
        · exact hx
        · exact ih h (hsp ▸ List.mem_cons_self h t) a ha2
      · exact ih l (hsp ▸ List.mem_cons_of_mem h hl2) a ha

/-- No line produced by splitOnNl contains a newline. -/
theorem splitOnNl_no_nl (buf : List Char) : ∀ l ∈ splitOnNl buf, '\n' ∉ l := by
  intro l hl hmem
  have := splitOnP_no_sep (fun a => a == '\n') buf l hl '\n' hmem
  simp at this

/-- Splitting is a left inverse of joining, on nonempty line lists whose
lines contain no newline. -/
theorem splitOnNl_joinNl (ls : List (List Char)) (hx : ∀ l ∈ ls, '\n' ∉ l)
    (hne : ls ≠ []) : splitOnNl (joinNl ls) = ls := by
  unfold splitOnNl joinNl
  exact List.splitOn_intercalate ls '\n' hx hne

/-- Members of a flattened pair list come from one of the pairs. -/
theorem mem_pairLines :
    ∀ (ps : List (List Char × List Char)) (l : List Char),
      l ∈ pairLines ps → ∃ p ∈ ps, l = p.1 ∨ l = p.2
  | [], l, h => by simp [pairLines] at h
  | p :: ps, l, h => by
    simp only [pairLines, List.mem_cons] at h
    rcases h with rfl | rfl | h2
    · exact ⟨p, List.mem_cons_self p ps, Or.inl rfl⟩
    · exact ⟨p, List.mem_cons_self p ps, Or.inr rfl⟩
    · obtain ⟨q, hq, hl⟩ := mem_pairLines ps l h2
      exact ⟨q, List.mem_cons_of_mem p hq, hl⟩

/-- The scan walks past any run of frame pairs whose call-site line
carries the internal package text. -/
theorem scanSuffix_skip (pairs : List (List Char × List Char)) (L : List (List Char))
    (hp : ∀ p ∈ pairs, hasLogrusPfx p.1 = true) :
    scanSuffix (pairLines pairs ++ L) = scanSuffix L := by
  induction pairs with
  | nil => rfl
  | cons p ps ih =>
    have h1 : hasLogrusPfx p.1 = true := hp p (List.mem_cons_self p ps)
    simp only [pairLines, List.cons_append]
    rw [show scanSuffix (p.1 :: p.2 :: (pairLines ps ++ L))
          = scanSuffix (pairLines ps ++ L) from by simp [scanSuffix, h1]]
    exact ih (fun q hq => hp q (List.mem_cons_of_mem p hq))

/-- The scan stops at the first line without the internal package text. -/
theorem scanSuffix_stop (l : List Char) (rest : List (List Char))
    (h : hasLogrusPfx l = false) :
    scanSuffix (l :: rest) = some (l :: rest) := by
  cases rest <;> simp [scanSuffix, h]

/-- Whatever suffix the scan returns is made of lines of its input. -/
theorem scanSuffix_subset :
    ∀ (xs suf : List (List Char)), scanSuffix xs = some suf → ∀ l ∈ suf, l ∈ xs
  | [], _, h => by simp [scanSuffix] at h
  | [l], suf, h => by
    by_cases hp : hasLogrusPfx l = true
    · simp [scanSuffix, hp] at h
    · simp [scanSuffix, hp] at h
      subst h
      exact fun x hx => hx
  | l :: m :: rest2, suf, h => by
    by_cases hp : hasLogrusPfx l = true
    · have h2 : scanSuffix rest2 = some suf := by simpa [scanSuffix, hp] using h
      intro x hx
      exact List.mem_cons_of_mem l
        (List.mem_cons_of_mem m (scanSuffix_subset rest2 suf h2 x hx))
    · simp [scanSuffix, hp] at h
      subst h
      exact fun x hx => hx

/-- Go map assignment appends when the key is absent. -/
theorem mapInsert_fresh (m : List (String × String)) (k v : String)
    (h : ∀ p ∈ m, p.1 ≠ k) : mapInsert m k v = m ++ [(k, v)] := by
  have hany : (m.any (fun p => p.1 == k)) = false := by
    rw [List.any_eq_false]
    intro p hp
    simp [h p hp]
  unfold mapInsert
  rw [hany]
  simp

/-- Folding Go map insertion over fields with pairwise distinct keys,
starting from a map whose keys avoid all field keys, appends one label
per field in order. -/
theorem foldl_mapInsert_eq_map :
    ∀ (fs : List (String × FieldValue)) (m : List (String × String)),
      (fs.map Prod.fst).Nodup →
      (∀ p ∈ m, ∀ q ∈ fs, p.1 ≠ q.1) →
      fs.foldl (fun acc q => mapInsert acc q.1 (fieldLabel q.2)) m
        = m ++ fs.map (fun q => (q.1, fieldLabel q.2))
  | [], m, _, _ => by simp
  | q :: qs, m, hnd, hdisj => by
    have hnd2 : (q.1 :: qs.map Prod.fst).Nodup := by simpa using hnd
    have hq1 : q.1 ∉ qs.map Prod.fst := (List.nodup_cons.mp hnd2).1
    rw [List.foldl_cons,
      mapInsert_fresh m q.1 (fieldLabel q.2)
        (fun p hp => hdisj p hp q (List.mem_cons_self q qs)),
      foldl_mapInsert_eq_map qs (m ++ [(q.1, fieldLabel q.2)])
        (List.nodup_cons.mp hnd2).2 ?_]
    · simp
    · intro p hp r hr
      rcases List.mem_append.mp hp with hpm | hpq
      · exact hdisj p hpm r (List.mem_cons_of_mem q hr)
      · have hpe : p = (q.1, fieldLabel q.2) := by simpa using hpq
        subst hpe
        intro hc
        exact hq1 (hc ▸ List.mem_map_of_mem Prod.fst hr)

/-! ### Claim theorems (second group) -/

/-- Claim C2: on a raw trace made of a header line, the sanitizer's own
two frame lines, k frame pairs whose call-site line carries the internal
logging-framework package text, and remaining lines whose first line does
not carry it, chopstack returns the header followed by the remaining
lines, newline-joined — all internal pairs removed, and the trace
unchanged when k is zero. -/
theorem chopstack_skips_internal_frames
    (H f1 f2 l0 : List Char) (pairs : List (List Char × List Char))
    (L : List (List Char))
    (hH : '\n' ∉ H) (hf1 : '\n' ∉ f1) (hf2 : '\n' ∉ f2)
    (hpairs : ∀ p ∈ pairs, '\n' ∉ p.1 ∧ '\n' ∉ p.2 ∧ hasLogrusPfx p.1 = true)
    (hl0 : '\n' ∉ l0) (hL : ∀ l ∈ L, '\n' ∉ l)
    (hstop : hasLogrusPfx l0 = false) :
    chopstack (joinNl (H :: f1 :: f2 :: (pairLines pairs ++ l0 :: L)))
      = some (joinNl (H :: l0 :: L)) := by
  have hall : ∀ l ∈ H :: f1 :: f2 :: (pairLines pairs ++ l0 :: L), '\n' ∉ l := by
    intro l hl
    simp only [List.mem_cons, List.mem_append] at hl
    rcases hl with rfl | rfl | rfl | hpl | rfl | hl2
    · exact hH
    · exact hf1
    · exact hf2
    · obtain ⟨p, hp, hcase⟩ := mem_pairLines pairs l hpl
      rcases hcase with rfl | rfl
      · exact (hpairs p hp).1
      · exact (hpairs p hp).2.1
    · exact hl0
    · exact hL l hl2
  unfold chopstack
  rw [splitOnNl_joinNl _ hall (by simp)]
  show (scanSuffix (pairLines pairs ++ l0 :: L)).map
      (fun rest => joinNl ([H] ++ rest)) = some (joinNl (H :: l0 :: L))
  rw [scanSuffix_skip pairs (l0 :: L) (fun p hp => (hpairs p hp).2.2),
    scanSuffix_stop l0 L hstop]
  rfl

/-- Claim C2 witness: a concrete trace with one internal frame pair. -/
theorem chopstack_skips_internal_frames_witness :
    chopstack (joinNl (hdrW :: ownFrame1 :: ownFrame2 ::
        (pairLines pairsW ++ appFrame1 :: appRest)))
      = some (joinNl (hdrW :: appFrame1 :: appRest)) :=
  chopstack_skips_internal_frames hdrW ownFrame1 ownFrame2 appFrame1 pairsW appRest
    (by decide) (by decide) (by decide) (by decide) (by decide) (by decide) (by decide)

/-- Claim C4: whenever chopstack returns (it does not panic), the first
line of its output is the first line of its input. -/
theorem chopstack_keeps_header (buf out : List Char)
    (h : chopstack buf = some out) :
    (splitOnNl out).headD [] = (splitOnNl buf).headD [] := by
  obtain ⟨l0, rest, hsp⟩ : ∃ l0 rest, splitOnNl buf = l0 :: rest := by
    cases hsp : splitOnNl buf with
    | nil => exact absurd hsp (splitOnNl_ne_nil buf)
    | cons a b => exact ⟨a, b, rfl⟩
  unfold chopstack at h
  rw [hsp] at h
  cases hscan : scanSuffix ((l0 :: rest).drop 3) with
  | none =>
    rw [hscan] at h
    exact absurd h (by simp)
  | some suf =>
    rw [hscan] at h
    simp only [Option.map, Option.some.injEq] at h
    have hout : out = joinNl (l0 :: suf) := by
      rw [← h]
      rfl
    subst hout
    have hx : ∀ l ∈ l0 :: suf, '\n' ∉ l := by
      intro l hl
      rcases List.mem_cons.mp hl with h1 | hl2
      · subst h1
        exact splitOnNl_no_nl buf l (hsp ▸ List.mem_cons_self l rest)
      · refine splitOnNl_no_nl buf l ?_
        rw [hsp]
        exact List.drop_subset 3 (l0 :: rest)
          (scanSuffix_subset ((l0 :: rest).drop 3) suf hscan l hl2)
    rw [splitOnNl_joinNl (l0 :: suf) hx (by simp), hsp]
    rfl

/-- Claim C4 witness: the header of the concrete sanitized trace equals
the header of the concrete raw trace. -/
theorem chopstack_keeps_header_witness :
    (splitOnNl choppedTrace1).headD [] = (splitOnNl rawTrace1).headD [] :=
  chopstack_keeps_header rawTrace1 choppedTrace1 (by decide)

/-- Claim C3 counterexample: with a sink whose submission fails, the
spec-modelled Fire surfaces the sink error but the code's Fire still
returns nil, so the claimed iff between a returned error and a failed
submission does not hold at this input. -/
theorem fire_ignores_sink_failure :
    (specLogFire failingSink evWarn).err = some "sink submission failed" ∧
    (logFire evWarn).err = none ∧
    (logFire evWarn).err ≠ (specLogFire failingSink evWarn).err :=
  ⟨rfl, rfl, by decide⟩

/-- Claim C3 (amended): Fire always returns nil.  The SDK submission
calls used by both hooks (Logger.Log, Client.Report) are asynchronous and
return no error, so no sink-level error is ever surfaced through Fire's
return value. -/
theorem fire_always_returns_nil :
    (∀ e : LogEvent, (logFire e).err = none) ∧
    (∀ (e : LogEvent) (raw : List Char) (r : ErrorFireResult),
        errorReportFire e raw = some r → r.err = none) := by
  refine ⟨fun _ => rfl, fun e raw r h => ?_⟩
  unfold errorReportFire at h
  cases hc : chopstack raw with
  | none =>
    rw [hc] at h
    exact absurd h (by simp)
  | some st =>
    rw [hc] at h
    simp only [Option.map, Option.some.injEq] at h
    subst h
    rfl

/-- Claim C3 (amended) witness: both Fire operations return nil on
concrete inputs. -/
theorem fire_always_returns_nil_witness :
    (logFire evWarn).err = none ∧ reportBoom.err = none :=
  ⟨fire_always_returns_nil.1 evWarn,
    fire_always_returns_nil.2 evBoom rawTrace1 reportBoom (by decide)⟩

/-- Claim C6: with the event's field keys pairwise distinct, toEntry
produces exactly one label per field under the same key; a string field
value passes through unchanged and any other value takes its default
textual form, the integer 42 becoming the text 42. -/
theorem toEntry_label_conversion (e : LogEvent)
    (hnd : (e.data.map Prod.fst).Nodup) :
    (toEntry e).labels = e.data.map (fun q => (q.1, fieldLabel q.2)) ∧
    (∀ s, fieldLabel (FieldValue.vstr s) = s) ∧
    fieldLabel (FieldValue.vint 42) = "42" := by
  refine ⟨?_, fun _ => rfl, rfl⟩
  show e.data.foldl (fun m q => mapInsert m q.1 (fieldLabel q.2)) [] = _
  rw [foldl_mapInsert_eq_map e.data [] hnd ?_]
  · rfl
  · intro p hp
    exact absurd hp (List.not_mem_nil p)

/-- Claim C6 witness: the labels of the concrete info event. -/
theorem toEntry_label_conversion_witness :
    (toEntry evInfo).labels = [("user", "howard"), ("n", "42")] := by
  rw [(toEntry_label_conversion evInfo (by decide)).1]
  rfl

/-- Claim C8: whenever ErrorReport.Fire returns, its single submitted
report carries the event message as its error text and the extracted user
identifier: a string user field passes through unchanged, any other user
field value takes its default textual form, and a missing user field
yields the empty identifier. -/
theorem errorReport_user_and_message
    (e : LogEvent) (raw : List Char) (r : ErrorFireResult)
    (h : errorReportFire e raw = some r) :
    r.submissions.map ReportEntry.error = [e.message] ∧
    r.submissions.map ReportEntry.user = [userField e.data] ∧
    (∀ s, e.data.lookup "user" = some (FieldValue.vstr s) → userField e.data = s) ∧
    (∀ v, e.data.lookup "user" = some v → userField e.data = govRepr v) ∧
    (e.data.lookup "user" = none → userField e.data = "") := by
  unfold errorReportFire at h
  cases hc : chopstack raw with
  | none =>
    rw [hc] at h
    exact absurd h (by simp)
  | some st =>
    rw [hc] at h
    simp only [Option.map, Option.some.injEq] at h
    subst h
    refine ⟨rfl, rfl, fun s hs => ?_, fun v hv => ?_, fun hn => ?_⟩
    · simp [userField, hs]
    · cases v <;> simp [userField, hv, govRepr]
    · simp [userField, hn]

/-- Claim C8 witness: end-to-end scenario A, the error event with the
howard user field and the concrete raw trace. -/
theorem errorReport_user_and_message_witness :
    reportUser.submissions.map ReportEntry.error = ["send user err: do bar: do foo"] ∧
    reportUser.submissions.map ReportEntry.user = ["howard"] := by
  have h := errorReport_user_and_message evUser rawTrace1 reportUser (by decide)
  exact ⟨h.1, by rw [h.2.1]; rfl⟩

/-- Claim C9: Log.Fire submits exactly one entry to the log sink, and
whenever ErrorReport.Fire returns it has run exactly one stack capture
and submitted exactly one report; no buffering or repetition occurs. -/
theorem fire_exactly_one_submission :
    (∀ e : LogEvent, (logFire e).submissions.length = 1) ∧
    (∀ (e : LogEvent) (raw : List Char) (r : ErrorFireResult),
        errorReportFire e raw = some r →
        r.captures = 1 ∧ r.submissions.length = 1) := by
  refine ⟨fun _ => rfl, fun e raw r h => ?_⟩
  unfold errorReportFire at h
  cases hc : chopstack raw with
  | none =>
    rw [hc] at h
    exact absurd h (by simp)
  | some st =>
    rw [hc] at h
    simp only [Option.map, Option.some.injEq] at h
    subst h
    exact ⟨rfl, rfl⟩

/-- Claim C9 witness: the single-submission counts on concrete inputs. -/
theorem fire_exactly_one_submission_witness :
    (logFire evWarn).submissions.length = 1 ∧
    reportUser.captures = 1 ∧ reportUser.submissions.length = 1 := by
  have h := fire_exactly_one_submission.2 evUser rawTrace1 reportUser (by decide)
  exact ⟨fire_exactly_one_submission.1 evWarn, h.1, h.2⟩

end StackdriverHook
